import Mathlib

set_option maxHeartbeats 1000000

/- Verification of the braiins-open wire PROXY-protocol front-end
   (src/protocols/wire/src/proxy.rs) and of the cooperative halt supervisor
   (src/utils-rs/async-utils/src/halthandle.rs).

   Modelling conventions:
   - bytes are `Nat`s (always < 256 in practice);
   - an asynchronous byte stream is a list of chunks (`List (List Nat)`):
     each successful `read_buf` call delivers the next chunk, and an
     exhausted chunk list corresponds to EOF (`read_buf` returning 0);
     a real transport never delivers an empty chunk before EOF, which is
     captured by the `WFChunks` predicate;
   - fallible Rust functions become `Except`/`Option` values, and a
     Rust panic (`assert!`) is a dedicated error value of a separate type. -/

deriving instance DecidableEq for Except

namespace Wire

/-- Bytes delivered by a chunked transport, in order. -/
def flatten (chunks : List (List Nat)) : List Nat := chunks.flatten

/-- A well-formed transport never delivers an empty chunk before EOF
(`read_buf` returns 0 only at end of stream). -/
def WFChunks (chunks : List (List Nat)) : Prop := ∀ c ∈ chunks, c ≠ []

/-- Model of `std::net::IpAddr`: a v4 address is four octets, a v6 address is
eight 16-bit groups. -/
inductive IpAddr where
  | v4 (a b c d : Nat)
  | v6 (segs : List Nat)
deriving DecidableEq

/-- Model of `std::net::SocketAddr`: an IP address plus a port. -/
structure SocketAddr where
  ip : IpAddr
  port : Nat
deriving DecidableEq

/-- Model of `codec::ProxyInfo`: the optional original source and destination
endpoints decoded from a PROXY protocol header. -/
structure ProxyInfo where
  original_source : Option SocketAddr
  original_destination : Option SocketAddr
deriving DecidableEq

/-- The `error::Error` values produced by the proxy front-end, restricted to
the variants `proxy.rs` can produce: `Error::Proxy("Proxy protocol is
required")`, `Error::Proxy("Stream terminated")` and `Error::InvalidState`. -/
inductive Error where
  | proxyRequired
  | streamTerminated
  | invalidState
deriving DecidableEq

/-- Errors of a codec `decode` call: a malformed header, or an io-kind error
(the default `decode_eof` failure on a non-empty buffer at EOF). -/
inductive DecodeErr where
  | malformed
  | io
deriving DecidableEq

/-- Result of one `Decoder::decode` call: a decoded `ProxyInfo` plus the
remaining buffer, a need-more-bytes indication (`Ok(None)` in Rust), or an
error.  The carried list is the state of the mutable `BytesMut` buffer after
the call. -/
inductive DecodeStep where
  | item (info : ProxyInfo) (rest : List Nat)
  | needMore (rest : List Nat)
  | err (e : DecodeErr) (rest : List Nat)
deriving DecidableEq

/-- A codec is its `decode` function (the encoder side is not needed by the
accepting path). -/
structure Codec where
  decode : List Nat → DecodeStep

/-- The constant `V1_TAG`, the bytes of the string PROXY followed by a
space. -/
def V1_TAG : List Nat := [80, 82, 79, 88, 89, 32]

/-- The fixed 12-byte v2 signature `codec::v2::SIGNATURE`. -/
def SIGNATURE : List Nat := [13, 10, 13, 10, 0, 13, 10, 81, 85, 73, 84, 10]

/-- The constant `V2_TAG = codec::v2::SIGNATURE`. -/
def V2_TAG : List Nat := SIGNATURE

/-- Modelled from the spec: `codec::MAX_HEADER_SIZE`, the 107-byte bound on a
v1 header line (the codec module is not among the provided sources). -/
def MAX_HEADER_SIZE : Nat := 107

/-- Index of the first carriage-return/line-feed pair in a byte list, if
any.  Helper for the modelled v1 decoder. -/
def findCrlf : List Nat → Option Nat
  | [] => none
  | [_] => none
  | a :: b :: rest =>
    if a = 13 ∧ b = 10 then some 0
    else (findCrlf (b :: rest)).map (· + 1)

/-- Value of a decimal digit byte, if it is one. -/
def decDigitVal (c : Nat) : Option Nat :=
  if 48 ≤ c ∧ c ≤ 57 then some (c - 48) else none

/-- Value of a hexadecimal digit byte, if it is one. -/
def hexDigitVal (c : Nat) : Option Nat :=
  if 48 ≤ c ∧ c ≤ 57 then some (c - 48)
  else if 65 ≤ c ∧ c ≤ 70 then some (c - 55)
  else if 97 ≤ c ∧ c ≤ 102 then some (c - 87)
  else none

/-- Parse a non-empty all-decimal byte list into its value. -/
def parseDec (l : List Nat) : Option Nat :=
  if l.isEmpty then none
  else l.foldl (fun acc c => acc.bind (fun n => (decDigitVal c).map (fun d => n * 10 + d)))
    (some 0)

/-- Parse a non-empty all-hexadecimal byte list into its value. -/
def parseHex (l : List Nat) : Option Nat :=
  if l.isEmpty then none
  else l.foldl (fun acc c => acc.bind (fun n => (hexDigitVal c).map (fun d => n * 16 + d)))
    (some 0)

/-- Split a byte list on a separator byte (like `str::split`). -/
def splitOnByte (sep : Nat) (l : List Nat) : List (List Nat) :=
  l.foldr
    (fun c acc =>
      if c = sep then [] :: acc
      else
        match acc with
        | [] => [[c]]
        | g :: gs => (c :: g) :: gs)
    [[]]

/-- Modelled from the spec: parsing of a v1 ASCII IPv4 address, four decimal
octets separated by dots. -/
def parseIpv4 (tok : List Nat) : Option IpAddr :=
  match splitOnByte 46 tok with
  | [a, b, c, d] => do
    let va ← parseDec a
    let vb ← parseDec b
    let vc ← parseDec c
    let vd ← parseDec d
    if va ≤ 255 ∧ vb ≤ 255 ∧ vc ≤ 255 ∧ vd ≤ 255 then
      some (IpAddr.v4 va vb vc vd)
    else none
  | _ => none

/-- Modelled from the spec: parsing of a v1 ASCII IPv6 address, eight
hexadecimal 16-bit groups separated by colons. -/
def parseIpv6 (tok : List Nat) : Option IpAddr :=
  match (splitOnByte 58 tok).mapM parseHex with
  | some gs =>
    if gs.length = 8 ∧ ∀ g ∈ gs, g ≤ 65535 then some (IpAddr.v6 gs) else none
  | none => none

/-- Modelled from the spec: parsing of a decimal port number, at most 65535. -/
def parsePort (tok : List Nat) : Option Nat :=
  (parseDec tok).bind (fun p => if p ≤ 65535 then some p else none)

/-- The bytes of the string TCP4 followed by a space. -/
def TCP4_SP : List Nat := [84, 67, 80, 52, 32]

/-- The bytes of the string TCP6 followed by a space. -/
def TCP6_SP : List Nat := [84, 67, 80, 54, 32]

/-- The bytes of the string UNKNOWN. -/
def UNKNOWN_TOK : List Nat := [85, 78, 75, 78, 79, 87, 78]

/-- Modelled from the spec: the address part of a v1 line after the family
token, `src-ip dst-ip src-port dst-port` separated by single spaces each side
parsed in the given family. -/
def parseV1Addrs (isV4 : Bool) (s : List Nat) : Option ProxyInfo :=
  match splitOnByte 32 s with
  | [a, b, c, d] => do
    let srcIp ← if isV4 then parseIpv4 a else parseIpv6 a
    let dstIp ← if isV4 then parseIpv4 b else parseIpv6 b
    let srcPort ← parsePort c
    let dstPort ← parsePort d
    some ⟨some ⟨srcIp, srcPort⟩, some ⟨dstIp, dstPort⟩⟩
  | _ => none

/-- Modelled from the spec: parsing of one complete v1 header line (without
the terminating CRLF).  The line must start with the PROXY tag; the family
token is TCP4, TCP6 or UNKNOWN; for UNKNOWN any trailing text is permitted
and both endpoints are absent (`codec::v1` is not among the provided
sources). -/
def parseV1Line (line : List Nat) : Option ProxyInfo :=
  if line.take 6 = V1_TAG then
    let s := line.drop 6
    if s.take 7 = UNKNOWN_TOK then some ⟨none, none⟩
    else if s.take 5 = TCP4_SP then parseV1Addrs true (s.drop 5)
    else if s.take 5 = TCP6_SP then parseV1Addrs false (s.drop 5)
    else none
  else none

/-- Modelled from the spec: `V1Codec::decode`.  Waits for a complete CRLF
terminated line (need-more until then, `Malformed` once the buffer exceeds
the maximal header size without a terminator); on a complete line, parses it
and consumes the buffer past the CRLF. -/
def v1decode (buf : List Nat) : DecodeStep :=
  match findCrlf buf with
  | none =>
    if MAX_HEADER_SIZE < buf.length then .err .malformed buf else .needMore buf
  | some i =>
    match parseV1Line (buf.take i) with
    | some info => .item info (buf.drop (i + 2))
    | none => .err .malformed buf

/-- Declared length of the v2 address block: bytes 14 and 15, big endian. -/
def v2Len (buf : List Nat) : Nat := buf.getD 14 0 * 256 + buf.getD 15 0

/-- Modelled from the spec: decoding of the family-dependent v2 address
block.  `cmd` 0 is LOCAL, family or transport 0 is UNSPEC (absent
endpoints, block discarded); INET reads 4+4+2+2 bytes, INET6 reads
16+16+2+2 bytes, trailing bytes within the declared length are skipped as
TLVs; the UNIX family is accepted with absent endpoints; anything else is
malformed (`none`). -/
def v2ParseAddresses (cmd fam proto len : Nat) (block : List Nat) : Option ProxyInfo :=
  if cmd = 0 then some ⟨none, none⟩
  else if fam = 0 ∨ proto = 0 then some ⟨none, none⟩
  else if proto ≤ 2 ∧ fam = 1 then
    if 12 ≤ len then
      some ⟨some ⟨IpAddr.v4 (block.getD 0 0) (block.getD 1 0) (block.getD 2 0) (block.getD 3 0),
              block.getD 8 0 * 256 + block.getD 9 0⟩,
            some ⟨IpAddr.v4 (block.getD 4 0) (block.getD 5 0) (block.getD 6 0) (block.getD 7 0),
              block.getD 10 0 * 256 + block.getD 11 0⟩⟩
    else none
  else if proto ≤ 2 ∧ fam = 2 then
    if 36 ≤ len then
      some ⟨some ⟨IpAddr.v6 ((List.range 8).map
                (fun k => block.getD (2 * k) 0 * 256 + block.getD (2 * k + 1) 0)),
              block.getD 32 0 * 256 + block.getD 33 0⟩,
            some ⟨IpAddr.v6 ((List.range 8).map
                (fun k => block.getD (16 + 2 * k) 0 * 256 + block.getD (16 + 2 * k + 1) 0)),
              block.getD 34 0 * 256 + block.getD 35 0⟩⟩
    else none
  else if proto ≤ 2 ∧ fam = 3 then some ⟨none, none⟩
  else none

/-- Modelled from the spec: `V2Codec::decode`.  Waits for the fixed 16-byte
head, validates signature, version nibble and command nibble, then waits for
the declared address-block length and decodes the block (`codec::v2` is not
among the provided sources). -/
def v2decode (buf : List Nat) : DecodeStep :=
  if buf.length < 16 then .needMore buf
  else if buf.take 12 ≠ SIGNATURE then .err .malformed buf
  else if buf.getD 12 0 / 16 ≠ 2 then .err .malformed buf
  else if 1 < buf.getD 12 0 % 16 then .err .malformed buf
  else if buf.length < 16 + v2Len buf then .needMore buf
  else
    match v2ParseAddresses (buf.getD 12 0 % 16) (buf.getD 13 0 / 16) (buf.getD 13 0 % 16)
      (v2Len buf) ((buf.drop 16).take (v2Len buf)) with
    | some info => .item info (buf.drop (16 + v2Len buf))
    | none => .err .malformed buf

/-- The modelled `V1Codec`. -/
def V1Codec : Codec := ⟨v1decode⟩

/-- The modelled `V2Codec`. -/
def V2Codec : Codec := ⟨v2decode⟩

/-- Default `Decoder::decode_eof` of tokio-util: try `decode`; on need-more,
succeed with nothing when the buffer is empty and fail with an io error
("bytes remaining on stream") otherwise. -/
def Codec.decode_eof (c : Codec) (buf : List Nat) : DecodeStep :=
  match c.decode buf with
  | .item i rest => .item i rest
  | .needMore rest => if rest.isEmpty then .needMore rest else .err .io rest
  | .err e rest => .err e rest

/-- Outcome of one `Framed::next()` call: a decoded item together with the
final read buffer and the unread remainder of the transport, a decode error
(also with buffer and remainder, recovered via `Framed::into_parts`), or
`None` (stream terminated). -/
inductive FramedNextResult where
  | item (info : ProxyInfo) (read_buf : List Nat) (stream : List (List Nat))
  | error (e : DecodeErr) (read_buf : List Nat) (stream : List (List Nat))
  | terminated
deriving DecidableEq

/-- The tokio-util `FramedImpl` read loop driving one `next()` call: while
`is_readable`, try `decode`; a decoded frame or an error stops the loop;
on need-more, read the next chunk and retry; at EOF (no chunks left, or a
0-byte read) run `decode_eof` once, where need-more means the stream ended
cleanly with an empty buffer (`next()` returns `None`). -/
def framedNext (c : Codec) (isReadable : Bool) (buf : List Nat)
    (chunks : List (List Nat)) : FramedNextResult :=
  match isReadable, chunks with
  | true, chunks =>
    match c.decode buf, chunks with
    | .item i rest, _ => .item i rest chunks
    | .err e rest, _ => .error e rest chunks
    | .needMore rest, [] =>
      match c.decode_eof rest with
      | .item i r2 => .item i r2 []
      | .err e r2 => .error e r2 []
      | .needMore _ => .terminated
    | .needMore rest, ch :: more =>
      if ch.isEmpty then
        match c.decode_eof rest with
        | .item i r2 => .item i r2 more
        | .err e r2 => .error e r2 more
        | .needMore _ => .terminated
      else framedNext c true (rest ++ ch) more
  | false, [] =>
    match c.decode_eof buf with
    | .item i r2 => .item i r2 []
    | .err e r2 => .error e r2 []
    | .needMore _ => .terminated
  | false, ch :: more =>
    if ch.isEmpty then
      match c.decode_eof buf with
      | .item i r2 => .item i r2 more
      | .err e r2 => .error e r2 more
      | .needMore _ => .terminated
    else framedNext c true (buf ++ ch) more

/-- Model of `ProxyStream<T>`: the inner transport, the carry-over buffer
`buf`, and the optional original endpoints. -/
structure ProxyStream (T : Type) where
  inner : T
  buf : List Nat
  orig_source : Option SocketAddr
  orig_destination : Option SocketAddr
deriving DecidableEq

/-- Model of tokio-util `FramedParts<T, C>`: the transport and the read
buffer seeded for the next framed layer (the codec value itself carries no
state relevant here). -/
structure FramedPartsModel (T : Type) where
  io : T
  read_buf : List Nat
deriving DecidableEq

/-- `ProxyStream::try_into_inner`: returns the inner stream only when the
carry buffer is empty, otherwise an `InvalidState` error value. -/
def ProxyStream.try_into_inner (ps : ProxyStream T) : Except Error T :=
  if ps.buf.isEmpty then .ok ps.inner
  else .error Error.invalidState

/-- `ProxyStream::into_framed_parts`: fresh parts for the downstream codec
whose read buffer is seeded with the carry bytes. -/
def ProxyStream.into_framed_parts (ps : ProxyStream T) : FramedPartsModel T :=
  ⟨ps.inner, ps.buf⟩

/-- Model of `Acceptor`: its only state is the `require_proxy_header` flag. -/
structure Acceptor where
  require_proxy_header : Bool
deriving DecidableEq

/-- `impl Default for Acceptor`: the proxy header is not required. -/
def Acceptor.default : Acceptor := ⟨false⟩

/-- `Acceptor::new`, which returns the default acceptor. -/
def Acceptor.new : Acceptor := Acceptor.default

/-- The builder method `Acceptor::require_proxy_header`. -/
def Acceptor.set_require_proxy_header (_ : Acceptor) (require_proxy_header : Bool) : Acceptor :=
  ⟨require_proxy_header⟩

/-- `Acceptor::COMMON_HEADER_PREFIX_LEN`: number of initially buffered bytes
sufficient to discriminate the supported protocol variants. -/
def Acceptor.COMMON_HEADER_PREFIX_LEN : Nat := 5

/-- The read loop at the start of `Acceptor::accept_auto`: read chunks into
`buf` until at least `COMMON_HEADER_PREFIX_LEN` bytes are buffered, or stop
at EOF (no chunk left, or a 0-byte read). -/
def Acceptor.readCommonHead (buf : List Nat) (chunks : List (List Nat)) :
    List Nat × List (List Nat) :=
  if Acceptor.COMMON_HEADER_PREFIX_LEN ≤ buf.length then (buf, chunks)
  else
    match chunks with
    | [] => (buf, [])
    | ch :: more => if ch.isEmpty then (buf, more) else Acceptor.readCommonHead (buf ++ ch) more

/-- `Acceptor::try_from_stream_to_proxy_stream`: convert the raw stream and
the buffered bytes into a header-less `ProxyStream` as long as the proxy
header is not required, otherwise fail. -/
def Acceptor.try_from_stream_to_proxy_stream (a : Acceptor)
    (stream : List (List Nat)) (buf : List Nat) :
    Except Error (ProxyStream (List (List Nat))) :=
  if a.require_proxy_header then .error Error.proxyRequired
  else .ok ⟨stream, buf, none, none⟩

/-- `Acceptor::accept_with_codec`: build a framed stream whose read buffer is
seeded with the already-read bytes, pull one frame, and either produce the
`ProxyStream` carrying the leftover read buffer, fall back to the no-header
path on a decode error, or fail when the stream terminated before a frame. -/
def Acceptor.accept_with_codec (a : Acceptor) (read_buf : Option (List Nat))
    (stream : List (List Nat)) (codec : Codec) :
    Except Error (ProxyStream (List (List Nat))) :=
  let buf := read_buf.getD []
  match framedNext codec (!buf.isEmpty) buf stream with
  | .terminated => .error Error.streamTerminated
  | .item info read_buf' stream' =>
    .ok ⟨stream', read_buf', info.original_source, info.original_destination⟩
  | .error _ read_buf' stream' => a.try_from_stream_to_proxy_stream stream' read_buf'

/-- `Acceptor::accept_auto`: buffer the common 5-byte head, then dispatch on
it to the v1 codec, the v2 codec, or the no-header fall-through. -/
def Acceptor.accept_auto (a : Acceptor) (chunks : List (List Nat)) :
    Except Error (ProxyStream (List (List Nat))) :=
  if (Acceptor.readCommonHead [] chunks).1.length < Acceptor.COMMON_HEADER_PREFIX_LEN then
    a.try_from_stream_to_proxy_stream (Acceptor.readCommonHead [] chunks).2
      (Acceptor.readCommonHead [] chunks).1
  else if (Acceptor.readCommonHead [] chunks).1.take Acceptor.COMMON_HEADER_PREFIX_LEN
      = V1_TAG.take Acceptor.COMMON_HEADER_PREFIX_LEN then
    a.accept_with_codec (some (Acceptor.readCommonHead [] chunks).1)
      (Acceptor.readCommonHead [] chunks).2 V1Codec
  else if (Acceptor.readCommonHead [] chunks).1.take Acceptor.COMMON_HEADER_PREFIX_LEN
      = V2_TAG.take Acceptor.COMMON_HEADER_PREFIX_LEN then
    a.accept_with_codec (some (Acceptor.readCommonHead [] chunks).1)
      (Acceptor.readCommonHead [] chunks).2 V2Codec
  else
    a.try_from_stream_to_proxy_stream (Acceptor.readCommonHead [] chunks).2
      (Acceptor.readCommonHead [] chunks).1

/-- `Acceptor::accept_v1`: decode v1 directly, with an empty initial read
buffer. -/
def Acceptor.accept_v1 (a : Acceptor) (chunks : List (List Nat)) :
    Except Error (ProxyStream (List (List Nat))) :=
  a.accept_with_codec none chunks V1Codec

/-- `Acceptor::accept_v2`: decode v2 directly, with an empty initial read
buffer. -/
def Acceptor.accept_v2 (a : Acceptor) (chunks : List (List Nat)) :
    Except Error (ProxyStream (List (List Nat))) :=
  a.accept_with_codec none chunks V2Codec

/-- `ProxyStream::new`: accept via the default acceptor in auto-detect
mode. -/
def ProxyStream.new (chunks : List (List Nat)) :
    Except Error (ProxyStream (List (List Nat))) :=
  Acceptor.default.accept_auto chunks

/-- Model of `ProtocolVersion`. -/
inductive ProtocolVersion where
  | V1
  | V2
deriving DecidableEq

/-- Model of `ProtocolConfig`. -/
structure ProtocolConfig where
  require_proxy_header : Bool
  versions : List ProtocolVersion
deriving DecidableEq

/-- The four build strategies an `AcceptorBuilder` can pre-select
(`build_skip`, `build_v1`, `build_v2`, `build_auto`). -/
inductive BuildStrategy where
  | skip
  | v1
  | v2
  | auto
deriving DecidableEq

/-- The `assert!` failure in `AcceptorBuilder::new` (a Rust panic, kept in a
type of its own since it is not an `error::Error` value). -/
inductive BuildPanic where
  | inconsistentConfig
deriving DecidableEq

/-- `AcceptorBuilder::new`: strategy selection from the configuration,
matching on the number of configured versions; requiring the proxy header
with no version configured is a build-time panic. -/
def AcceptorBuilder.new (config : ProtocolConfig) : Except BuildPanic BuildStrategy :=
  match config.versions with
  | [] =>
    if config.require_proxy_header then .error BuildPanic.inconsistentConfig
    else .ok BuildStrategy.skip
  | [v] =>
    if config.require_proxy_header then
      match v with
      | ProtocolVersion.V1 => .ok BuildStrategy.v1
      | ProtocolVersion.V2 => .ok BuildStrategy.v2
    else .ok BuildStrategy.auto
  | _ => .ok BuildStrategy.auto

/-- `AcceptorBuilder::build_skip`: wrap the raw stream in a `ProxyStream`
with an empty carry buffer and no endpoints. -/
def AcceptorBuilder.build_skip (stream : List (List Nat)) : ProxyStream (List (List Nat)) :=
  ⟨stream, [], none, none⟩

/-- A codec consumes exactly the header `H` producing `info`: on any buffer
extending `H` the decode yields `info` and leaves exactly the extension, and
on any strict front segment of `H` it asks for more bytes, leaving the
buffer untouched. -/
def ConsumesExactly (c : Codec) (H : List Nat) (info : ProxyInfo) : Prop :=
  (∀ rest, c.decode (H ++ rest) = DecodeStep.item info rest) ∧
  (∀ n, n < H.length → c.decode (H.take n) = DecodeStep.needMore (H.take n))

/-- A complete valid v1 header `H` decoding to `info`: within the size
bound, its first CRLF is its final two bytes, and the line before the CRLF
parses to `info`. -/
def ValidV1Header (H : List Nat) (info : ProxyInfo) : Prop :=
  H.length ≤ MAX_HEADER_SIZE ∧ 2 ≤ H.length ∧
  findCrlf H = some (H.length - 2) ∧
  parseV1Line (H.take (H.length - 2)) = some info

/-- A complete valid v2 header `H` decoding to `info`: at least 16 bytes,
the correct signature, version nibble 2, command nibble at most 1, total
length exactly 16 plus the declared address-block length, and an address
block parsing to `info`. -/
def ValidV2Header (H : List Nat) (info : ProxyInfo) : Prop :=
  16 ≤ H.length ∧
  H.take 12 = SIGNATURE ∧
  H.getD 12 0 / 16 = 2 ∧
  H.getD 12 0 % 16 ≤ 1 ∧
  H.length = 16 + v2Len H ∧
  v2ParseAddresses (H.getD 12 0 % 16) (H.getD 13 0 / 16) (H.getD 13 0 % 16)
    (v2Len H) (H.drop 16) = some info

end Wire

/- Model of the halt supervisor (halthandle.rs).

   Asynchronous execution is abstracted by discrete instants (`Nat`): every
   awaited event either resolves at a definite instant or never resolves
   (`Option Nat`).  A supervised task is described by the instant at which
   its `JoinHandle` resolves (`none` when the task never finishes) and by
   whether it resolved with a `JoinError` (a panic).  The task queue of a
   `HaltHandle` is the list of `TaskMsg`s in enqueue order, assumed fully
   enqueued by the time `join()` drains it (the documented usage: `join` is
   called once `ready()` was called).  `tokio::select!` is modelled as
   picking the branch that resolves at the earlier instant; the tie goes to
   the task-collection branch. -/

namespace Halt

/-- Description of one supervised task: the instant its `JoinHandle`
resolves (`none` when it never finishes) and whether it resolved with a
`JoinError` (a panic). -/
structure TaskSpec where
  finish : Option Nat
  panics : Bool
deriving DecidableEq

/-- Model of `TaskMsg`: a spawned task's handle or the `Ready` sentinel. -/
inductive TaskMsg where
  | task (t : TaskSpec)
  | ready
deriving DecidableEq

/-- The collectable queue content: the tasks enqueued before the first
`Ready` message, or `none` when no `Ready` was enqueued (the `take_while`
stream in `join` then never ends and the collection future never
resolves). -/
def tasksBeforeReady : List TaskMsg → Option (List TaskSpec)
  | [] => none
  | TaskMsg.ready :: _ => some []
  | TaskMsg.task t :: rest => (tasksBeforeReady rest).map (t :: ·)

/-- The value `join()` produces: `Ok(())`, `Err(Timeout)`, or
`Err(Join(err))` where `idx` identifies the offending task by its position
in the collectable queue. -/
inductive JoinOutcome where
  | ok
  | timeout
  | joinErr (idx : Nat)
deriving DecidableEq

/-- The `handles` future of `join()`: await each collected handle in
enqueue order; the first `JoinError` short-circuits the result (later
handles are no longer awaited, the queue drain is instantaneous).  Returns
the instant at which the future resolves together with its result, `none`
when some decisive handle never resolves.  `idx` numbers the tasks,
`now` is the running instant. -/
def handlesRun (idx : Nat) (now : Nat) : List TaskSpec → Option (Nat × JoinOutcome)
  | [] => some (now, JoinOutcome.ok)
  | t :: rest =>
    match t.finish with
    | none => none
    | some ft =>
      if t.panics then some (max now ft, JoinOutcome.joinErr idx)
      else handlesRun (idx + 1) (max now ft) rest

/-- Resolution of the `handles` branch of `join()` from the queue content. -/
def handlesResolve (msgs : List TaskMsg) : Option (Nat × JoinOutcome) :=
  (tasksBeforeReady msgs).bind (handlesRun 0 0)

/-- Resolution instant of the `notify` branch of `join()`: the halt
notification (observed at the instant `halt()` is called, `none` when it
never is) starts the optional timeout; without a timeout the branch pends
forever. -/
def notifyResolve (haltTime : Option Nat) (timeout : Option Nat) : Option Nat :=
  match haltTime, timeout with
  | some h, some d => some (h + d)
  | _, _ => none

/-- `HaltHandle::join`: select between collecting the task handles and the
post-halt timeout; the earlier resolution wins (ties go to the collection
branch).  Returns the instant and outcome, or `none` when `join` never
returns. -/
def HaltHandle.join (msgs : List TaskMsg) (haltTime timeout : Option Nat) :
    Option (Nat × JoinOutcome) :=
  match handlesResolve msgs, notifyResolve haltTime timeout with
  | none, none => none
  | some tr, none => some tr
  | none, some nt => some (nt, JoinOutcome.timeout)
  | some tr, some nt =>
    if tr.1 ≤ nt then some tr else some (nt, JoinOutcome.timeout)

/-- Model of a `Tripwire`: whether its `watch::Receiver` is still held
(`receiver = true` models `Some`; a resolved `Tripwire` has taken it). -/
structure Tripwire where
  receiver : Bool
deriving DecidableEq

/-- One `Future::poll` call on a `Tripwire`, given the state of the shared
watch cell: an absent receiver is immediately ready; otherwise the
wait-for-halt future is ready exactly when the cell is fired, and on
readiness the receiver is taken.  Returns the updated tripwire and whether
the poll returned `Ready`. -/
def Tripwire.poll (tw : Tripwire) (fired : Bool) : Tripwire × Bool :=
  if tw.receiver then
    if fired then (⟨false⟩, true) else (tw, false)
  else (tw, true)

/-- `Clone for Tripwire`: the receiver (and its seen-version) is cloned, the
in-flight future is not. -/
def Tripwire.clone (tw : Tripwire) : Tripwire := ⟨tw.receiver⟩

/-- A trigger/tripwire cell together with every clone derived from it. -/
structure TripSys where
  fired : Bool
  clones : List Tripwire
deriving DecidableEq

/-- The events that can happen to a trigger/tripwire family:
`Trigger::cancel` fires the cell; any clone may be polled; any clone may be
cloned (the new clone is appended). -/
inductive TripStep : TripSys → TripSys → Prop
  | cancel (f : Bool) (cs : List Tripwire) : TripStep ⟨f, cs⟩ ⟨true, cs⟩
  | poll (f : Bool) (pre post : List Tripwire) (tw : Tripwire) :
      TripStep ⟨f, pre ++ tw :: post⟩ ⟨f, pre ++ (tw.poll f).1 :: post⟩
  | clone (f : Bool) (cs : List Tripwire) (tw : Tripwire) (h : tw ∈ cs) :
      TripStep ⟨f, cs⟩ ⟨f, cs ++ [tw.clone]⟩

/-- Reachability under `TripStep`. -/
def TripReach : TripSys → TripSys → Prop := Relation.ReflTransGen TripStep

/-- `Tripwire::new`: a fresh unfired cell with the single original
tripwire. -/
def tripInit : TripSys := ⟨false, [⟨true⟩]⟩

/-- Position `k` holds the first panicking task of the list: the task at `k`
panics and no earlier task does. -/
def FirstPanic (ts : List TaskSpec) (k : Nat) : Prop :=
  (ts.get? k).map TaskSpec.panics = some true ∧
  ∀ t ∈ ts.take k, t.panics = false

end Halt

/- Theorems.  Each claim of the specification gets one theorem (plus a
   witness when the theorem has hypotheses); shared helper lemmas come
   first. -/

namespace Wire

/-- With the proxy header not required, the no-header fall-through always
succeeds and carries the buffered bytes with absent endpoints. -/
theorem try_from_stream_not_required (s : List (List Nat)) (b : List Nat) :
    Acceptor.try_from_stream_to_proxy_stream ⟨false⟩ s b =
      Except.ok ⟨s, b, none, none⟩ := rfl

/-- C9: for every `ProxyStream`, `try_into_inner` returns the untouched
inner stream if and only if the carry buffer is empty; with a non-empty
carry it returns the `InvalidState` error as a value. -/
theorem c9_try_into_inner {T : Type} (ps : ProxyStream T) :
    (ps.buf = [] → ps.try_into_inner = Except.ok ps.inner) ∧
    (ps.buf ≠ [] → ps.try_into_inner = Except.error Error.invalidState) := by
  constructor <;> intro h <;> simp [ProxyStream.try_into_inner, h]

/-- Witness for C9 at concrete proxy streams with empty and non-empty
carries. -/
theorem c9_witness :
    (ProxyStream.try_into_inner ⟨(0 : Nat), [], none, none⟩ = Except.ok 0) ∧
    (ProxyStream.try_into_inner ⟨(0 : Nat), [1], none, none⟩ =
      Except.error Error.invalidState) :=
  ⟨(c9_try_into_inner ⟨0, [], none, none⟩).1 rfl,
   (c9_try_into_inner ⟨0, [1], none, none⟩).2 (by decide)⟩

/-- C3: `AcceptorBuilder::new` selects the build strategy exactly according
to the configuration table: no versions without requirement selects skip
(which wraps the raw stream with an empty carry and no endpoints); no
versions with requirement is a build-time configuration error; one version
with requirement selects that version's decoder; one version without
requirement selects auto-detect; two or more versions always select
auto-detect. -/
theorem c3_builder_strategy :
    (AcceptorBuilder.new ⟨false, []⟩ = Except.ok BuildStrategy.skip) ∧
    (AcceptorBuilder.new ⟨true, []⟩ = Except.error BuildPanic.inconsistentConfig) ∧
    (AcceptorBuilder.new ⟨true, [ProtocolVersion.V1]⟩ = Except.ok BuildStrategy.v1) ∧
    (AcceptorBuilder.new ⟨true, [ProtocolVersion.V2]⟩ = Except.ok BuildStrategy.v2) ∧
    (∀ v, AcceptorBuilder.new ⟨false, [v]⟩ = Except.ok BuildStrategy.auto) ∧
    (∀ (req : Bool) (vs : List ProtocolVersion), 2 ≤ vs.length →
      AcceptorBuilder.new ⟨req, vs⟩ = Except.ok BuildStrategy.auto) ∧
    (∀ s, AcceptorBuilder.build_skip s = ⟨s, [], none, none⟩) := by
  refine ⟨rfl, rfl, rfl, rfl, fun v => rfl, ?_, fun s => rfl⟩
  intro req vs h
  cases vs with
  | nil => simp at h
  | cons a tl =>
    cases tl with
    | nil => simp at h
    | cons b tl2 => rfl

/-- Witness for C3 applying the quantified rows of the table at concrete
configurations. -/
theorem c3_witness :
    AcceptorBuilder.new ⟨true, [ProtocolVersion.V1, ProtocolVersion.V2]⟩ =
      Except.ok BuildStrategy.auto ∧
    AcceptorBuilder.new ⟨false, [ProtocolVersion.V2]⟩ = Except.ok BuildStrategy.auto :=
  ⟨c3_builder_strategy.2.2.2.2.2.1 true [ProtocolVersion.V1, ProtocolVersion.V2]
    (by decide),
   c3_builder_strategy.2.2.2.2.1 ProtocolVersion.V2⟩

/-- C4: when a dispatched codec's decode returns an error (not need-more),
`accept_with_codec` does not propagate it: it falls back to the no-header
path with the bytes buffered at that point, failing only when the proxy
header is required and otherwise producing a `ProxyStream` that carries
those bytes with absent endpoints. -/
theorem c4_decode_error_fallback (req : Bool) (buf rest : List Nat)
    (stream stream' : List (List Nat)) (codec : Codec) (e : DecodeErr)
    (h : framedNext codec (!buf.isEmpty) buf stream = FramedNextResult.error e rest stream') :
    Acceptor.accept_with_codec ⟨req⟩ (some buf) stream codec =
      if req then Except.error Error.proxyRequired
      else Except.ok ⟨stream', rest, none, none⟩ := by
  simp [Acceptor.accept_with_codec, h, Acceptor.try_from_stream_to_proxy_stream]

/-- Witness for C4: a buffer that carries the v1 tag but a malformed family
token is not propagated as an error; the bytes come back in the carry. -/
theorem c4_witness :
    Acceptor.accept_with_codec ⟨false⟩ (some [80, 82, 79, 88, 89, 32, 74, 85, 78, 75, 13, 10])
        [] V1Codec =
      Except.ok ⟨[], [80, 82, 79, 88, 89, 32, 74, 85, 78, 75, 13, 10], none, none⟩ := by
  have h := c4_decode_error_fallback false [80, 82, 79, 88, 89, 32, 74, 85, 78, 75, 13, 10]
    [80, 82, 79, 88, 89, 32, 74, 85, 78, 75, 13, 10] [] [] V1Codec DecodeErr.malformed
    (by decide)
  simpa using h

/-- C5: when the initially buffered bytes (at least 5 of them, or fewer only
at end of stream) match neither the v1 tag nor the v2 signature,
`accept_auto` fails with the proxy-required error when the header is
required, and otherwise returns a `ProxyStream` whose carry is exactly the
buffered bytes with both endpoints absent. -/
theorem c5_no_tag_fallthrough (req : Bool) (chunks rest : List (List Nat)) (buf : List Nat)
    (hread : Acceptor.readCommonHead [] chunks = (buf, rest))
    (hmiss : buf.length < Acceptor.COMMON_HEADER_PREFIX_LEN ∨
      (buf.take Acceptor.COMMON_HEADER_PREFIX_LEN
          ≠ V1_TAG.take Acceptor.COMMON_HEADER_PREFIX_LEN ∧
        buf.take Acceptor.COMMON_HEADER_PREFIX_LEN
          ≠ V2_TAG.take Acceptor.COMMON_HEADER_PREFIX_LEN)) :
    Acceptor.accept_auto ⟨req⟩ chunks =
      if req then Except.error Error.proxyRequired
      else Except.ok ⟨rest, buf, none, none⟩ := by
  unfold Acceptor.accept_auto
  rw [hread]
  by_cases hlen : buf.length < Acceptor.COMMON_HEADER_PREFIX_LEN
  · simp [hlen, Acceptor.try_from_stream_to_proxy_stream]
  · rcases hmiss with hmiss | ⟨h1, h2⟩
    · exact absurd hmiss hlen
    · simp [hlen, h1, h2, Acceptor.try_from_stream_to_proxy_stream]

/-- Witness for C5 on the literal no-header input from the specification. -/
theorem c5_witness :
    Acceptor.accept_auto ⟨true⟩
        [[77, 69, 77, 65, 77, 32, 80, 82, 79, 88, 89, 32, 72, 69, 65, 68, 69, 82]] =
      Except.error Error.proxyRequired := by
  have h := c5_no_tag_fallthrough true
    [[77, 69, 77, 65, 77, 32, 80, 82, 79, 88, 89, 32, 72, 69, 65, 68, 69, 82]] []
    [77, 69, 77, 65, 77, 32, 80, 82, 79, 88, 89, 32, 72, 69, 65, 68, 69, 82]
    (by decide) (Or.inr (by decide))
  simpa using h

/-- C10: the default acceptor (also built by `Acceptor::new`) does not
require the proxy header, and consequently `ProxyStream::new`, which accepts
through the default acceptor in auto-detect mode, never fails with the
proxy-required error. -/
theorem c10_default_never_requires :
    Acceptor.default.require_proxy_header = false ∧
    Acceptor.new = Acceptor.default ∧
    ∀ chunks, ProxyStream.new chunks ≠ Except.error Error.proxyRequired := by
  refine ⟨rfl, rfl, fun chunks => ?_⟩
  have hc : ∀ (rb : Option (List Nat)) (s : List (List Nat)) (c : Codec),
      Acceptor.default.accept_with_codec rb s c ≠ Except.error Error.proxyRequired := by
    intro rb s c
    cases h : framedNext c (!(rb.getD []).isEmpty) (rb.getD []) s <;>
      simp [Acceptor.accept_with_codec, h, Acceptor.try_from_stream_to_proxy_stream,
        Acceptor.default]
  unfold ProxyStream.new Acceptor.accept_auto
  split
  · simp [Acceptor.try_from_stream_to_proxy_stream, Acceptor.default]
  · split
    · exact hc _ _ _
    · split
      · exact hc _ _ _
      · simp [Acceptor.try_from_stream_to_proxy_stream, Acceptor.default]

end Wire

namespace Halt

/-- When the handle-collection future resolves with `Ok`, its resolution
instant bounds the running instant and the completion instant of every
collected task. -/
theorem handlesRun_ok_le (ts : List TaskSpec) : ∀ i now T,
    handlesRun i now ts = some (T, JoinOutcome.ok) →
    now ≤ T ∧ ∀ t ∈ ts, ∃ f, t.finish = some f ∧ f ≤ T := by
  induction ts with
  | nil =>
    intro i now T h
    simp [handlesRun] at h
    exact ⟨le_of_eq h, by simp⟩
  | cons t rest ih =>
    intro i now T h
    cases hf : t.finish with
    | none => simp [handlesRun, hf] at h
    | some ft =>
      cases hp : t.panics with
      | true => simp [handlesRun, hf, hp] at h
      | false =>
        simp only [handlesRun, hf, hp, Bool.false_eq_true, if_false] at h
        obtain ⟨hle, hall⟩ := ih (i + 1) (max now ft) T h
        refine ⟨le_trans (le_max_left _ _) hle, ?_⟩
        intro u hu
        rcases List.mem_cons.mp hu with rfl | hu'
        · exact ⟨ft, hf, le_trans (le_max_right _ _) hle⟩
        · exact hall u hu'

/-- The handle-collection future never produces the timeout outcome. -/
theorem handlesRun_ne_timeout (ts : List TaskSpec) : ∀ i now T,
    handlesRun i now ts ≠ some (T, JoinOutcome.timeout) := by
  induction ts with
  | nil => intro i now T h; simp [handlesRun] at h
  | cons t rest ih =>
    intro i now T h
    cases hf : t.finish with
    | none => simp [handlesRun, hf] at h
    | some ft =>
      cases hp : t.panics with
      | true => simp [handlesRun, hf, hp] at h
      | false =>
        simp only [handlesRun, hf, hp, Bool.false_eq_true, if_false] at h
        exact ih (i + 1) (max now ft) T h

/-- Neither does the `handles` branch as resolved from the queue content. -/
theorem handlesResolve_ne_timeout (msgs : List TaskMsg) (T : Nat) :
    handlesResolve msgs ≠ some (T, JoinOutcome.timeout) := by
  unfold handlesResolve
  cases hq : tasksBeforeReady msgs with
  | none => simp
  | some tasks => simpa using handlesRun_ne_timeout tasks 0 0 T

/-- When every collected task finishes and none panics, the
handle-collection future resolves with `Ok`. -/
theorem handlesRun_all_ok (ts : List TaskSpec) : ∀ i now,
    (∀ t ∈ ts, t.finish.isSome ∧ t.panics = false) →
    ∃ T, handlesRun i now ts = some (T, JoinOutcome.ok) := by
  induction ts with
  | nil => intro i now _; exact ⟨now, rfl⟩
  | cons t rest ih =>
    intro i now hall
    obtain ⟨hsome, hp⟩ := hall t (List.mem_cons_self t rest)
    obtain ⟨ft, hf⟩ := Option.isSome_iff_exists.mp hsome
    obtain ⟨T, hT⟩ := ih (i + 1) (max now ft)
      (fun u hu => hall u (List.mem_cons_of_mem t hu))
    exact ⟨T, by simp [handlesRun, hf, hp, hT]⟩

/-- When the handle-collection future resolves with a join error, the index
it carries is the first panicking task of the collected list (relative to
the starting index). -/
theorem handlesRun_joinErr_first (ts : List TaskSpec) : ∀ i now T k,
    handlesRun i now ts = some (T, JoinOutcome.joinErr k) →
    i ≤ k ∧ FirstPanic ts (k - i) := by
  induction ts with
  | nil => intro i now T k h; simp [handlesRun] at h
  | cons t rest ih =>
    intro i now T k h
    cases hf : t.finish with
    | none => simp [handlesRun, hf] at h
    | some ft =>
      cases hp : t.panics with
      | true =>
        simp only [handlesRun, hf, hp, if_true] at h
        have hk : i = k := by
          have h2 : JoinOutcome.joinErr i = JoinOutcome.joinErr k := (Prod.mk.injEq _ _ _ _ |>.mp
            (Option.some.injEq _ _ |>.mp h)).2
          exact JoinOutcome.joinErr.injEq _ _ |>.mp h2
        subst hk
        refine ⟨le_refl _, ?_, ?_⟩
        · simp [Nat.sub_self, FirstPanic, hp]
        · simp [Nat.sub_self]
      | false =>
        simp only [handlesRun, hf, hp, Bool.false_eq_true, if_false] at h
        obtain ⟨hik, hfp⟩ := ih (i + 1) (max now ft) T k h
        have hki : k - i = (k - (i + 1)) + 1 := by omega
        refine ⟨le_trans (Nat.le_succ i) hik, ?_, ?_⟩
        · rw [hki]
          simpa using hfp.1
        · rw [hki]
          intro u hu
          rcases List.mem_cons.mp (by simpa using hu) with rfl | hu'
          · exact hp
          · exact hfp.2 u hu'

/-- Elimination for `join`: a returned value comes either from the
handle-collection branch, or (carrying the timeout outcome) from the
notify-then-timeout branch. -/
theorem join_eq_cases (msgs : List TaskMsg) (haltTime timeout : Option Nat)
    (T : Nat) (o : JoinOutcome)
    (h : HaltHandle.join msgs haltTime timeout = some (T, o)) :
    handlesResolve msgs = some (T, o) ∨
    (o = JoinOutcome.timeout ∧ notifyResolve haltTime timeout = some T) := by
  unfold HaltHandle.join at h
  cases hr : handlesResolve msgs with
  | none =>
    cases hn : notifyResolve haltTime timeout with
    | none =>
      rw [hr, hn] at h
      replace h : (none : Option (Nat × JoinOutcome)) = some (T, o) := h
      simp at h
    | some nt =>
      rw [hr, hn] at h
      replace h : some (nt, JoinOutcome.timeout) = some (T, o) := h
      simp only [Option.some.injEq, Prod.mk.injEq] at h
      exact Or.inr ⟨h.2.symm, congrArg some h.1⟩
  | some tr =>
    cases hn : notifyResolve haltTime timeout with
    | none =>
      rw [hr, hn] at h
      replace h : some tr = some (T, o) := h
      simp only [Option.some.injEq] at h
      exact Or.inl (congrArg some h)
    | some nt =>
      rw [hr, hn] at h
      replace h : (if tr.1 ≤ nt then some tr else some (nt, JoinOutcome.timeout))
          = some (T, o) := h
      by_cases hle : tr.1 ≤ nt
      · rw [if_pos hle] at h
        simp only [Option.some.injEq] at h
        exact Or.inl (congrArg some h)
      · rw [if_neg hle] at h
        simp only [Option.some.injEq, Prod.mk.injEq] at h
        exact Or.inr ⟨h.2.symm, congrArg some h.1⟩

/-- When the notify branch never resolves, `join` behaves exactly as the
handle-collection branch. -/
theorem join_no_notify (msgs : List TaskMsg) (haltTime timeout : Option Nat)
    (hn : notifyResolve haltTime timeout = none) :
    HaltHandle.join msgs haltTime timeout = handlesResolve msgs := by
  unfold HaltHandle.join
  rw [hn]
  cases handlesResolve msgs <;> rfl

/-- The notify branch never resolves when `halt()` is never called. -/
theorem notifyResolve_no_halt (timeout : Option Nat) :
    notifyResolve none timeout = none := by
  cases timeout <;> rfl

/-- C6: `join` returns `Ok` only when a `Ready` message was enqueued and
every task enqueued before it completed no later than the instant at which
`join` returns; this holds for every queue content, halt instant and
timeout. -/
theorem c6_ok_requires_ready_and_completion (msgs : List TaskMsg)
    (haltTime timeout : Option Nat) (T : Nat)
    (h : HaltHandle.join msgs haltTime timeout = some (T, JoinOutcome.ok)) :
    ∃ tasks, tasksBeforeReady msgs = some tasks ∧
      ∀ t ∈ tasks, ∃ f, t.finish = some f ∧ f ≤ T := by
  rcases join_eq_cases msgs haltTime timeout T JoinOutcome.ok h with hh | ⟨hto, _⟩
  · unfold handlesResolve at hh
    cases hq : tasksBeforeReady msgs with
    | none => rw [hq] at hh; simp at hh
    | some tasks =>
      rw [hq] at hh
      simp only [Option.some_bind] at hh
      exact ⟨tasks, rfl, (handlesRun_ok_le tasks 0 0 T hh).2⟩
  · exact absurd hto (by simp)

/-- Witness for C6: a queue with one completed task, joined without halting;
the task indeed completed by the instant `join` returned. -/
theorem c6_witness :
    ∃ tasks, tasksBeforeReady [TaskMsg.task ⟨some 3, false⟩, TaskMsg.ready] = some tasks ∧
      ∀ t ∈ tasks, ∃ f, t.finish = some f ∧ f ≤ 3 :=
  c6_ok_requires_ready_and_completion [TaskMsg.task ⟨some 3, false⟩, TaskMsg.ready]
    none none 3 (by decide)

/-- C7: `join` returns `Timeout` only at the instant the halt notification
plus the supplied timeout elapses (so only when `halt()` was called and a
timeout was supplied, and the period is measured from the halt instant);
when `halt()` is never called, `join` never returns `Timeout`, and if a
`Ready` was enqueued and all collected tasks complete without panicking it
returns `Ok`. -/
theorem c7_timeout_needs_halt (msgs : List TaskMsg) (haltTime timeout : Option Nat) :
    (∀ T, HaltHandle.join msgs haltTime timeout = some (T, JoinOutcome.timeout) →
      ∃ h d, haltTime = some h ∧ timeout = some d ∧ T = h + d) ∧
    (haltTime = none →
      (∀ T, HaltHandle.join msgs none timeout ≠ some (T, JoinOutcome.timeout)) ∧
      (∀ tasks, tasksBeforeReady msgs = some tasks →
        (∀ t ∈ tasks, t.finish.isSome ∧ t.panics = false) →
        ∃ T, HaltHandle.join msgs none timeout = some (T, JoinOutcome.ok))) := by
  constructor
  · intro T h
    rcases join_eq_cases msgs haltTime timeout T JoinOutcome.timeout h with hh | ⟨_, hn⟩
    · exact absurd hh (handlesResolve_ne_timeout msgs T)
    · unfold notifyResolve at hn
      cases haltTime with
      | none => cases timeout <;> simp at hn
      | some hh =>
        cases timeout with
        | none => simp at hn
        | some d =>
          replace hn : some (hh + d) = some T := hn
          simp only [Option.some.injEq] at hn
          exact ⟨hh, d, rfl, rfl, hn.symm⟩
  · intro hhalt
    constructor
    · intro T h
      rw [join_no_notify msgs none timeout (notifyResolve_no_halt timeout)] at h
      exact handlesResolve_ne_timeout msgs T h
    · intro tasks hq hall
      obtain ⟨T, hT⟩ := handlesRun_all_ok tasks 0 0 hall
      refine ⟨T, ?_⟩
      rw [join_no_notify msgs none timeout (notifyResolve_no_halt timeout)]
      unfold handlesResolve
      rw [hq]
      simpa using hT

/-- Witness for C7: a halted-and-timed-out join, and a no-halt join with one
naturally completing task. -/
theorem c7_witness :
    (∃ h d, (some 2 : Option Nat) = some h ∧ (some 5 : Option Nat) = some d ∧ 7 = h + d) ∧
    (∃ T, HaltHandle.join [TaskMsg.task ⟨some 4, false⟩, TaskMsg.ready] none (some 9)
      = some (T, JoinOutcome.ok)) :=
  ⟨(c7_timeout_needs_halt [] (some 2) (some 5)).1 7 (by decide),
   ((c7_timeout_needs_halt [TaskMsg.task ⟨some 4, false⟩, TaskMsg.ready] none (some 9)).2
      rfl).2 [⟨some 4, false⟩] (by decide) (by decide)⟩


/-- C2 as stated is false on the code: with a timeout supplied, a task that
panics immediately but is enqueued after a task that never finishes does not
make `join` return the `Join` error; the collection future is stuck awaiting
the first handle, so the post-halt timeout elapses and `join` returns
`Timeout`. -/
theorem c2_counterexample :
    tasksBeforeReady
        [TaskMsg.task ⟨none, false⟩, TaskMsg.task ⟨some 0, true⟩, TaskMsg.ready]
      = some [⟨none, false⟩, ⟨some 0, true⟩] ∧
    FirstPanic [⟨none, false⟩, ⟨some 0, true⟩] 1 ∧
    HaltHandle.join
        [TaskMsg.task ⟨none, false⟩, TaskMsg.task ⟨some 0, true⟩, TaskMsg.ready]
        (some 0) (some 100)
      = some (100, JoinOutcome.timeout) := by
  refine ⟨by decide, ⟨by decide, by decide⟩, by decide⟩

/-- C2 amended: if some task enqueued before `Ready` panics, every task
enqueued before the first panicking one completes, and the instant at which
the panic is collected is no later than the halt-plus-timeout instant
(vacuously so when no timeout applies), then `join` returns the `Join`
error of the first panicked task in enqueue order (neither `Ok` nor
`Timeout`). -/
theorem c2_amended_first_panic (msgs : List TaskMsg) (haltTime timeout : Option Nat)
    (tasks : List TaskSpec) (T k : Nat)
    (hq : tasksBeforeReady msgs = some tasks)
    (hrun : handlesRun 0 0 tasks = some (T, JoinOutcome.joinErr k))
    (ht : ∀ nt, notifyResolve haltTime timeout = some nt → T ≤ nt) :
    HaltHandle.join msgs haltTime timeout = some (T, JoinOutcome.joinErr k) ∧
    FirstPanic tasks k := by
  have hres : handlesResolve msgs = some (T, JoinOutcome.joinErr k) := by
    unfold handlesResolve
    rw [hq]
    simpa using hrun
  constructor
  · unfold HaltHandle.join
    rw [hres]
    cases hn : notifyResolve haltTime timeout with
    | none => rfl
    | some nt =>
      have := ht nt hn
      simp only [this, if_true]
  · simpa using (handlesRun_joinErr_first tasks 0 0 T k hrun).2

/-- Witness for the amended C2: a successfully finishing task followed by a
panicking one; the panic is collected at instant 5, before the deadline
100, and `join` reports the panic of the task at position 1. -/
theorem c2_amended_witness :
    HaltHandle.join
        [TaskMsg.task ⟨some 5, false⟩, TaskMsg.task ⟨some 3, true⟩, TaskMsg.ready]
        (some 0) (some 100)
      = some (5, JoinOutcome.joinErr 1) ∧
    FirstPanic [⟨some 5, false⟩, ⟨some 3, true⟩] 1 :=
  c2_amended_first_panic
    [TaskMsg.task ⟨some 5, false⟩, TaskMsg.task ⟨some 3, true⟩, TaskMsg.ready]
    (some 0) (some 100) [⟨some 5, false⟩, ⟨some 3, true⟩] 5 1
    (by decide) (by decide)
    (by intro nt hnt
        have h2 : (100 : Nat) = nt := by
          replace hnt : some (0 + 100 : Nat) = some nt := hnt
          simpa using hnt
        omega)

/-- A single step never unfires the cell. -/
theorem tripStep_fired_mono {s s' : TripSys} (h : TripStep s s') :
    s.fired = true → s'.fired = true := by
  cases h <;> simp_all

/-- No sequence of steps unfires the cell: firing is one-way. -/
theorem tripReach_fired_mono {s s' : TripSys} (h : TripReach s s') :
    s.fired = true → s'.fired = true := by
  replace h : Relation.ReflTransGen TripStep s s' := h
  induction h with
  | refl => exact id
  | tail _ hbc ih => exact fun hf => tripStep_fired_mono hbc (ih hf)

/-- In a reachable trigger/tripwire family, a resolved clone (one whose
receiver was taken) implies the cell has fired. -/
theorem tripReach_resolved_fired {s : TripSys} (h : TripReach tripInit s) :
    (∃ tw ∈ s.clones, tw.receiver = false) → s.fired = true := by
  replace h : Relation.ReflTransGen TripStep tripInit s := h
  induction h with
  | refl =>
    rintro ⟨tw, htw, hr⟩
    have : tw = ⟨true⟩ := by simpa [tripInit] using htw
    subst this
    simp at hr
  | tail _ hbc ih =>
    rintro ⟨tw, htw, hr⟩
    cases hbc with
    | cancel f cs => rfl
    | poll f pre post tw0 =>
      cases f with
      | true => rfl
      | false =>
        have hpoll : (tw0.poll false).1 = tw0 := by
          rcases tw0 with ⟨r⟩; cases r <;> rfl
        rw [hpoll] at htw
        exact ih ⟨tw, htw, hr⟩
    | clone f cs tw0 hmem =>
      rcases List.mem_append.mp htw with hcs | hsing
      · exact ih ⟨tw, hcs, hr⟩
      · have : tw = tw0.clone := by simpa using hsing
        subst this
        exact ih ⟨tw0, hmem, by simpa [Tripwire.clone] using hr⟩

/-- C8: for every reachable trigger/tripwire family, (i) once the cell is
fired it stays fired under every further step (no transition back to the
unfired state); (ii) once fired, every clone, and every clone freshly made
from one, resolves when polled; (iii) once any one clone has resolved, the
cell is fired and hence every clone resolves when polled; (iv) a resolved
tripwire remains resolved on every subsequent poll, whatever the cell
state. -/
theorem c8_tripwire_monotone (s s' : TripSys)
    (hs : TripReach tripInit s) (hss' : TripReach s s') :
    (s.fired = true → s'.fired = true) ∧
    (s.fired = true → ∀ tw ∈ s.clones,
      (tw.poll s.fired).2 = true ∧ ((tw.clone).poll s.fired).2 = true) ∧
    ((∃ tw ∈ s.clones, tw.receiver = false) →
      s.fired = true ∧ ∀ tw ∈ s.clones, (tw.poll s.fired).2 = true) ∧
    (∀ (tw : Tripwire) (f f' : Bool), (tw.poll f).2 = true →
      (((tw.poll f).1).poll f').2 = true) := by
  have hpoll_true : ∀ tw : Tripwire, (tw.poll true).2 = true := by
    intro tw; rcases tw with ⟨r⟩; cases r <;> rfl
  refine ⟨tripReach_fired_mono hss', ?_, ?_, ?_⟩
  · intro hf tw _
    rw [hf]
    exact ⟨hpoll_true tw, hpoll_true tw.clone⟩
  · intro hex
    have hf := tripReach_resolved_fired hs hex
    exact ⟨hf, fun tw _ => by rw [hf]; exact hpoll_true tw⟩
  · intro tw f f' hp
    rcases tw with ⟨r⟩
    cases r with
    | false => simp [Tripwire.poll]
    | true =>
      cases f with
      | false => simp [Tripwire.poll] at hp
      | true => simp [Tripwire.poll]

/-- Witness for C8 after firing the trigger of a fresh family: the original
tripwire polls ready and the fired state is observed. -/
theorem c8_witness :
    ((Tripwire.mk true).poll true).2 = true ∧
    (TripSys.mk true [⟨true⟩]).fired = true :=
  have h := c8_tripwire_monotone ⟨true, [⟨true⟩]⟩ ⟨true, [⟨true⟩]⟩
    (Relation.ReflTransGen.single (TripStep.cancel false [⟨true⟩]))
    Relation.ReflTransGen.refl
  ⟨(h.2.1 rfl ⟨true⟩ (List.mem_singleton.mpr rfl)).1, h.1 rfl⟩

end Halt

namespace Wire

/-- Witness for C10: the spec's literal too-short input accepted through
`ProxyStream::new` does not produce the proxy-required error. -/
theorem c10_witness :
    ProxyStream.new [[78, 73, 67, 13, 10]] ≠ Except.error Error.proxyRequired :=
  c10_default_never_requires.2.2 [[78, 73, 67, 13, 10]]

/-- Unfolding equation of `findCrlf` at a two-element front. -/
theorem findCrlf_cons₂ (a b : Nat) (rest : List Nat) :
    findCrlf (a :: b :: rest) =
      if a = 13 ∧ b = 10 then some 0 else (findCrlf (b :: rest)).map (· + 1) := rfl

/-- The first CRLF of a list stays the first CRLF after appending. -/
theorem findCrlf_append (l : List Nat) : ∀ i, findCrlf l = some i →
    ∀ r, findCrlf (l ++ r) = some i := by
  induction l with
  | nil => intro i h r; simp [findCrlf] at h
  | cons a tl ih =>
    intro i h r
    cases tl with
    | nil => simp [findCrlf] at h
    | cons b tl2 =>
      rw [findCrlf_cons₂] at h
      rw [List.cons_append, List.cons_append, findCrlf_cons₂]
      by_cases hab : a = 13 ∧ b = 10
      · rw [if_pos hab] at h
        rw [if_pos hab]
        exact h
      · rw [if_neg hab] at h
        rw [if_neg hab]
        obtain ⟨j, hj, hij⟩ := Option.map_eq_some'.mp h
        have hr := ih j hj r
        rw [List.cons_append] at hr
        rw [hr]
        simpa using hij

/-- Any front segment of a list cut before (or at) the end of its first
CRLF contains no CRLF. -/
theorem findCrlf_take (l : List Nat) : ∀ i, findCrlf l = some i →
    ∀ n, n ≤ i + 1 → findCrlf (l.take n) = none := by
  induction l with
  | nil => intro i h; simp [findCrlf] at h
  | cons a tl ih =>
    intro i h n hn
    cases tl with
    | nil => simp [findCrlf] at h
    | cons b tl2 =>
      rw [findCrlf_cons₂] at h
      by_cases hab : a = 13 ∧ b = 10
      · rw [if_pos hab] at h
        have hi : i = 0 := by simpa using h.symm
        subst hi
        rcases n with _ | _ | m
        · simp [findCrlf]
        · simp [findCrlf]
        · omega
      · rw [if_neg hab] at h
        obtain ⟨j, hj, hij⟩ := Option.map_eq_some'.mp h
        rcases n with _ | _ | m
        · simp [findCrlf]
        · simp [findCrlf]
        · have ht := ih j hj (m + 1) (by omega)
          rw [List.take_succ_cons] at ht
          rw [List.take_succ_cons, List.take_succ_cons, findCrlf_cons₂, if_neg hab, ht]
          rfl

/-- A valid v1 header is at least 8 bytes long (its line starts with the
6-byte PROXY tag). -/
theorem valid_v1_length (H : List Nat) (info : ProxyInfo)
    (hv : ValidV1Header H info) : 8 ≤ H.length := by
  obtain ⟨_, h2, _, hparse⟩ := hv
  unfold parseV1Line at hparse
  by_cases htag : (H.take (H.length - 2)).take 6 = V1_TAG
  · have h6 : 6 ≤ (H.take (H.length - 2)).length := by
      have hlen := congrArg List.length htag
      rw [List.length_take] at hlen
      simp only [V1_TAG, List.length_cons, List.length_nil] at hlen
      omega
    rw [List.length_take] at h6
    omega
  · rw [if_neg htag] at hparse
    exact absurd hparse (by simp)

/-- A valid v1 header starts with the 5-byte common head of the v1 tag. -/
theorem valid_v1_tag (H : List Nat) (info : ProxyInfo)
    (hv : ValidV1Header H info) : H.take 5 = V1_TAG.take 5 := by
  have h8 := valid_v1_length H info hv
  obtain ⟨_, h2, _, hparse⟩ := hv
  unfold parseV1Line at hparse
  by_cases htag : (H.take (H.length - 2)).take 6 = V1_TAG
  · rw [List.take_take] at htag
    have hmin : 6 ⊓ (H.length - 2) = 6 := by omega
    rw [hmin] at htag
    have h56 : H.take 5 = (H.take 6).take 5 := by
      rw [List.take_take]
      norm_num
    rw [h56, htag]
  · rw [if_neg htag] at hparse
    exact absurd hparse (by simp)

/-- A valid v1 header is consumed exactly by the v1 decoder. -/
theorem valid_v1_consumes (H : List Nat) (info : ProxyInfo)
    (hv : ValidV1Header H info) : ConsumesExactly V1Codec H info := by
  obtain ⟨hmax, h2, hcrlf, hparse⟩ := hv
  constructor
  · intro rest
    show v1decode (H ++ rest) = DecodeStep.item info rest
    have h1 : findCrlf (H ++ rest) = some (H.length - 2) :=
      findCrlf_append H _ hcrlf rest
    have htk : (H ++ rest).take (H.length - 2) = H.take (H.length - 2) :=
      List.take_append_of_le_length (by omega)
    have hdr : (H ++ rest).drop (H.length - 2 + 2) = rest := by
      have hd : H.length - 2 + 2 = H.length := by omega
      rw [hd, List.drop_left]
    simp only [v1decode, h1, htk, hparse, hdr]
  · intro n hn
    show v1decode (H.take n) = DecodeStep.needMore (H.take n)
    have h1 : findCrlf (H.take n) = none :=
      findCrlf_take H _ hcrlf n (by omega)
    have hM : MAX_HEADER_SIZE = 107 := rfl
    have hnb : ¬(MAX_HEADER_SIZE < (H.take n).length) := by
      rw [List.length_take, hM]
      have : H.length ≤ 107 := by rw [← hM]; exact hmax
      omega
    simp only [v1decode, h1, if_neg hnb]

/-- Reading inside the kept part of a `take` is reading the original. -/
theorem getD_take_eq (l : List Nat) : ∀ n i, i < n → (l.take n).getD i 0 = l.getD i 0 := by
  induction l with
  | nil => intro n i _; simp
  | cons a tl ih =>
    intro n i hi
    cases n with
    | zero => omega
    | succ m =>
      rw [List.take_succ_cons]
      cases i with
      | zero => rfl
      | succ j => simpa using ih m j (by omega)

/-- The declared v2 address-block length only depends on the first 16
bytes. -/
theorem v2Len_append (H r : List Nat) (h16 : 16 ≤ H.length) :
    v2Len (H ++ r) = v2Len H := by
  unfold v2Len
  rw [List.getD_append _ _ _ _ (by omega), List.getD_append _ _ _ _ (by omega)]

/-- Same for any front segment of at least 16 bytes. -/
theorem v2Len_take (H : List Nat) (n : Nat) (h16 : 16 ≤ n) :
    v2Len (H.take n) = v2Len H := by
  unfold v2Len
  rw [getD_take_eq H n 14 (by omega), getD_take_eq H n 15 (by omega)]

/-- A valid v2 header starts with the 5-byte common head of the v2
signature. -/
theorem valid_v2_tag (H : List Nat) (info : ProxyInfo)
    (hv : ValidV2Header H info) : H.take 5 = V2_TAG.take 5 := by
  obtain ⟨h16, hsig, _⟩ := hv
  have h512 : H.take 5 = (H.take 12).take 5 := by
    rw [List.take_take]
    norm_num
  rw [h512, hsig]
  rfl

/-- A valid v2 header is consumed exactly by the v2 decoder. -/
theorem valid_v2_consumes (H : List Nat) (info : ProxyInfo)
    (hv : ValidV2Header H info) : ConsumesExactly V2Codec H info := by
  obtain ⟨h16, hsig, hver, hcmd, hlen, hparse⟩ := hv
  constructor
  · intro rest
    show v2decode (H ++ rest) = DecodeStep.item info rest
    have hL : (H ++ rest).length = H.length + rest.length := List.length_append _ _
    have hg12 : (H ++ rest).getD 12 0 = H.getD 12 0 := List.getD_append _ _ _ _ (by omega)
    have hg13 : (H ++ rest).getD 13 0 = H.getD 13 0 := List.getD_append _ _ _ _ (by omega)
    have hvl : v2Len (H ++ rest) = v2Len H := v2Len_append H rest h16
    have hc1 : ¬((H ++ rest).length < 16) := by omega
    have hc2 : ¬((H ++ rest).take 12 ≠ SIGNATURE) := by
      rw [List.take_append_of_le_length (by omega), hsig]
      exact fun hne => hne rfl
    have hc3 : ¬(H.getD 12 0 / 16 ≠ 2) := by
      rw [hver]
      exact fun hne => hne rfl
    have hc4 : ¬(1 < H.getD 12 0 % 16) := by omega
    have hc5 : ¬((H ++ rest).length < 16 + v2Len H) := by omega
    have hblock : ((H ++ rest).drop 16).take (v2Len H) = H.drop 16 := by
      rw [List.drop_append_of_le_length (by omega)]
      have hdl : (H.drop 16).length = v2Len H := by
        rw [List.length_drop]
        omega
      rw [List.take_append_of_le_length (le_of_eq hdl.symm), List.take_of_length_le (le_of_eq hdl)]
    have hrest : (H ++ rest).drop (16 + v2Len H) = rest := by
      rw [← hlen, List.drop_left]
    simp only [v2decode, if_neg hc1, if_neg hc2, hg12, hg13, hvl, if_neg hc3, if_neg hc4,
      if_neg hc5, hblock, hparse, hrest]
  · intro n hn
    show v2decode (H.take n) = DecodeStep.needMore (H.take n)
    by_cases h16n : n < 16
    · have hc1 : (H.take n).length < 16 := by
        rw [List.length_take]
        omega
      simp only [v2decode, if_pos hc1]
    · push_neg at h16n
      have hltn : (H.take n).length = n := by
        rw [List.length_take]
        omega
      have hg12 : (H.take n).getD 12 0 = H.getD 12 0 := getD_take_eq H n 12 (by omega)
      have hg13 : (H.take n).getD 13 0 = H.getD 13 0 := getD_take_eq H n 13 (by omega)
      have hvl : v2Len (H.take n) = v2Len H := v2Len_take H n h16n
      have hc1 : ¬((H.take n).length < 16) := by omega
      have hc2 : ¬((H.take n).take 12 ≠ SIGNATURE) := by
        rw [List.take_take]
        have hmin : 12 ⊓ n = 12 := by omega
        rw [hmin, hsig]
        exact fun hne => hne rfl
      have hc3 : ¬(H.getD 12 0 / 16 ≠ 2) := by
        rw [hver]
        exact fun hne => hne rfl
      have hc4 : ¬(1 < H.getD 12 0 % 16) := by omega
      have hc5 : (H.take n).length < 16 + v2Len H := by
        rw [hltn]
        omega
      simp only [v2decode, if_neg hc1, if_neg hc2, hg12, hg13, hvl, if_neg hc3, if_neg hc4,
        if_pos hc5]

/-- The initial read loop of `accept_auto` preserves the bytes of the
transport, stops only with at least the common head buffered or at EOF, and
leaves a well-formed remainder. -/
theorem readCommonHead_spec (chunks : List (List Nat)) : ∀ buf,
    WFChunks chunks →
    (Acceptor.readCommonHead buf chunks).1 ++ flatten (Acceptor.readCommonHead buf chunks).2
        = buf ++ flatten chunks ∧
    (Acceptor.COMMON_HEADER_PREFIX_LEN ≤ (Acceptor.readCommonHead buf chunks).1.length ∨
      (Acceptor.readCommonHead buf chunks).2 = []) ∧
    WFChunks (Acceptor.readCommonHead buf chunks).2 := by
  induction chunks with
  | nil =>
    intro buf _
    by_cases h5 : Acceptor.COMMON_HEADER_PREFIX_LEN ≤ buf.length
    · unfold Acceptor.readCommonHead
      rw [if_pos h5]
      exact ⟨rfl, Or.inl h5, fun c hc => by simp at hc⟩
    · unfold Acceptor.readCommonHead
      rw [if_neg h5]
      exact ⟨rfl, Or.inr rfl, fun c hc => by simp at hc⟩
  | cons ch more ih =>
    intro buf hwf
    have hch : ch ≠ [] := hwf ch (List.mem_cons_self _ _)
    have hwf' : WFChunks more := fun c hc => hwf c (List.mem_cons_of_mem _ hc)
    by_cases h5 : Acceptor.COMMON_HEADER_PREFIX_LEN ≤ buf.length
    · unfold Acceptor.readCommonHead
      rw [if_pos h5]
      exact ⟨rfl, Or.inl h5, hwf⟩
    · have hne : ch.isEmpty = false := by
        simpa [List.isEmpty_iff] using hch
      have hstep : Acceptor.readCommonHead buf (ch :: more)
          = Acceptor.readCommonHead (buf ++ ch) more := by
        rw [Acceptor.readCommonHead.eq_def, if_neg h5]
        simp [hne]
      rw [hstep]
      obtain ⟨he, hlen, hwfr⟩ := ih (buf ++ ch) hwf'
      refine ⟨?_, hlen, hwfr⟩
      rw [he]
      simp [flatten, List.append_assoc]

/-- A successful decode makes the framed read return the item at once. -/
theorem framedNext_item (c : Codec) (buf : List Nat) (chunks : List (List Nat))
    (i : ProxyInfo) (rest : List Nat) (h : c.decode buf = DecodeStep.item i rest) :
    framedNext c true buf chunks = FramedNextResult.item i rest chunks := by
  rw [framedNext.eq_def, h]

/-- A need-more decode makes the framed read append the next (non-empty)
chunk and retry. -/
theorem framedNext_needMore_cons (c : Codec) (buf ch : List Nat) (more : List (List Nat))
    (rest : List Nat) (h : c.decode buf = DecodeStep.needMore rest)
    (hne : ch.isEmpty = false) :
    framedNext c true buf (ch :: more) = framedNext c true (rest ++ ch) more := by
  rw [framedNext.eq_def, h]
  simp [hne]

/-- One framed read against a codec that consumes exactly the header `H`:
whenever the buffered bytes followed by the remaining chunks spell
`H ++ P`, the read produces the decoded item, and the leftover read buffer
followed by the unread chunks spells exactly `P`. -/
theorem framedNext_consumes (c : Codec) (H : List Nat) (info : ProxyInfo)
    (hce : ConsumesExactly c H info) (chunks : List (List Nat)) :
    ∀ (buf P : List Nat), WFChunks chunks → buf ++ flatten chunks = H ++ P →
    ∃ tail rest, framedNext c true buf chunks = FramedNextResult.item info tail rest ∧
      tail ++ flatten rest = P ∧ WFChunks rest := by
  induction chunks with
  | nil =>
    intro buf P _ heq
    have hb : buf = H ++ P := by simpa [flatten] using heq
    have hdec : c.decode buf = DecodeStep.item info P := by
      rw [hb]
      exact hce.1 P
    exact ⟨P, [], framedNext_item c buf [] info P hdec, by simp [flatten],
      fun c hc => by simp at hc⟩
  | cons ch more ih =>
    intro buf P hwf heq
    have hch : ch ≠ [] := hwf ch (List.mem_cons_self _ _)
    have hwf' : WFChunks more := fun c hc => hwf c (List.mem_cons_of_mem _ hc)
    by_cases hlen : H.length ≤ buf.length
    · have h1 : buf.take H.length = H := by
        have h2 := congrArg (List.take H.length) heq
        rw [List.take_append_of_le_length hlen, List.take_left] at h2
        exact h2
      have hbuf : buf = H ++ buf.drop H.length := by
        conv_lhs => rw [← List.take_append_drop H.length buf]
        rw [h1]
      have hdec : c.decode buf = DecodeStep.item info (buf.drop H.length) := by
        conv_lhs => rw [hbuf]
        exact hce.1 _
      refine ⟨buf.drop H.length, ch :: more, ?_, ?_, hwf⟩
      · exact framedNext_item c buf (ch :: more) info (buf.drop H.length) hdec
      · have h3 : (H ++ buf.drop H.length) ++ flatten (ch :: more) = H ++ P := by
          rw [← hbuf]
          exact heq
        rw [List.append_assoc] at h3
        exact List.append_cancel_left h3
    · push_neg at hlen
      have hpref : buf = H.take buf.length := by
        have h2 := congrArg (List.take buf.length) heq
        rw [List.take_left, List.take_append_of_le_length (le_of_lt hlen)] at h2
        exact h2
      have hdec : c.decode buf = DecodeStep.needMore buf := by
        have h3 := hce.2 buf.length hlen
        rw [← hpref] at h3
        exact h3
      have hne : ch.isEmpty = false := by
        simpa [List.isEmpty_iff] using hch
      have hstep : framedNext c true buf (ch :: more)
          = framedNext c true (buf ++ ch) more :=
        framedNext_needMore_cons c buf ch more buf hdec hne
      obtain ⟨tail, rest, ha, hb, hc⟩ := ih (buf ++ ch) P hwf'
        (by rw [← heq]; simp [flatten, List.append_assoc])
      exact ⟨tail, rest, hstep ▸ ha, hb, hc⟩

/-- A framed read producing an item makes `accept_with_codec` succeed with
the leftover buffer as carry and the decoded endpoints. -/
theorem accept_with_codec_item (a : Acceptor) (B : List Nat) (R : List (List Nat))
    (c : Codec) (info : ProxyInfo) (tail : List Nat) (rest : List (List Nat))
    (hBe : B.isEmpty = false)
    (hfr : framedNext c true B R = FramedNextResult.item info tail rest) :
    a.accept_with_codec (some B) R c =
      Except.ok ⟨rest, tail, info.original_source, info.original_destination⟩ := by
  simp [Acceptor.accept_with_codec, hBe, hfr]

/-- C1: for every well-formed inbound stream spelling `H ++ P` with `H` a
valid PROXY header (v1 or v2), `accept_auto` succeeds (whether or not the
header is required) and the resulting `ProxyStream`'s carry buffer followed
by the unread remainder of the inner stream is exactly `P`, in order;
converting the stream into framed parts seeds the downstream read buffer
with exactly the carry bytes. -/
theorem c1_byte_preservation (req : Bool) (chunks : List (List Nat))
    (H P : List Nat) (info : ProxyInfo)
    (hwf : WFChunks chunks)
    (hflat : flatten chunks = H ++ P)
    (hvalid : ValidV1Header H info ∨ ValidV2Header H info) :
    ∃ ps : ProxyStream (List (List Nat)),
      Acceptor.accept_auto ⟨req⟩ chunks = Except.ok ps ∧
      ps.buf ++ flatten ps.inner = P ∧
      ps.into_framed_parts = ⟨ps.inner, ps.buf⟩ := by
  have h5H : 5 ≤ H.length := by
    rcases hvalid with hv | hv
    · have := valid_v1_length H info hv
      omega
    · exact le_trans (by norm_num) hv.1
  obtain ⟨hBR, hor, hwfR⟩ := readCommonHead_spec chunks [] hwf
  rw [List.nil_append, hflat] at hBR
  have hC5 : Acceptor.COMMON_HEADER_PREFIX_LEN = 5 := rfl
  have h5B : 5 ≤ (Acceptor.readCommonHead [] chunks).1.length := by
    rcases hor with h | h
    · rw [hC5] at h
      exact h
    · have hB : (Acceptor.readCommonHead [] chunks).1 = H ++ P := by
        rw [h] at hBR
        simpa [flatten] using hBR
      rw [hB, List.length_append]
      omega
  have htake : (Acceptor.readCommonHead [] chunks).1.take 5 = H.take 5 := by
    have h := congrArg (List.take 5) hBR
    rw [List.take_append_of_le_length h5B, List.take_append_of_le_length h5H] at h
    exact h
  have hBne : (Acceptor.readCommonHead [] chunks).1 ≠ [] := by
    intro hnil
    rw [hnil] at h5B
    simp at h5B
  have hBe : (Acceptor.readCommonHead [] chunks).1.isEmpty = false :=
    List.isEmpty_eq_false.mpr hBne
  rcases hvalid with hv | hv
  · have htag : (Acceptor.readCommonHead [] chunks).1.take 5 = V1_TAG.take 5 :=
      htake.trans (valid_v1_tag H info hv)
    obtain ⟨tail, rest, hfr, htl, _⟩ :=
      framedNext_consumes V1Codec H info (valid_v1_consumes H info hv)
        (Acceptor.readCommonHead [] chunks).2 (Acceptor.readCommonHead [] chunks).1 P hwfR hBR
    refine ⟨⟨rest, tail, info.original_source, info.original_destination⟩, ?_, htl, rfl⟩
    unfold Acceptor.accept_auto
    rw [if_neg (by rw [hC5]; omega), if_pos (by rw [hC5]; exact htag)]
    exact accept_with_codec_item ⟨req⟩ _ _ V1Codec info tail rest hBe hfr
  · have htag : (Acceptor.readCommonHead [] chunks).1.take 5 = V2_TAG.take 5 :=
      htake.trans (valid_v2_tag H info hv)
    have hne1 : ¬((Acceptor.readCommonHead [] chunks).1.take Acceptor.COMMON_HEADER_PREFIX_LEN
        = V1_TAG.take Acceptor.COMMON_HEADER_PREFIX_LEN) := by
      rw [hC5, htag]
      decide
    obtain ⟨tail, rest, hfr, htl, _⟩ :=
      framedNext_consumes V2Codec H info (valid_v2_consumes H info hv)
        (Acceptor.readCommonHead [] chunks).2 (Acceptor.readCommonHead [] chunks).1 P hwfR hBR
    refine ⟨⟨rest, tail, info.original_source, info.original_destination⟩, ?_, htl, rfl⟩
    unfold Acceptor.accept_auto
    rw [if_neg (by rw [hC5]; omega), if_neg hne1, if_pos (by rw [hC5]; exact htag)]
    exact accept_with_codec_item ⟨req⟩ _ _ V2Codec info tail rest hBe hfr

/-- Witness for C1 on the literal v1 scenario of the specification: header
plus the payload HELLO delivered in one chunk. -/
theorem c1_witness :
    ∃ ps : ProxyStream (List (List Nat)),
      Acceptor.accept_auto ⟨false⟩ [[80, 82, 79, 88, 89, 32, 84, 67, 80, 52, 32, 49, 57, 50, 46, 49, 54, 56, 46, 48, 46, 49, 32, 49, 57, 50, 46, 49, 54, 56, 46, 48, 46, 49, 49, 32, 53, 54, 51, 50, 52, 32, 52, 52, 51, 13, 10, 72, 69, 76, 76, 79]] = Except.ok ps ∧
      ps.buf ++ flatten ps.inner = [72, 69, 76, 76, 79] ∧
      ps.into_framed_parts = ⟨ps.inner, ps.buf⟩ :=
  c1_byte_preservation false [[80, 82, 79, 88, 89, 32, 84, 67, 80, 52, 32, 49, 57, 50, 46, 49, 54, 56, 46, 48, 46, 49, 32, 49, 57, 50, 46, 49, 54, 56, 46, 48, 46, 49, 49, 32, 53, 54, 51, 50, 52, 32, 52, 52, 51, 13, 10, 72, 69, 76, 76, 79]]
    [80, 82, 79, 88, 89, 32, 84, 67, 80, 52, 32, 49, 57, 50, 46, 49, 54, 56, 46, 48, 46, 49, 32, 49, 57, 50, 46, 49, 54, 56, 46, 48, 46, 49, 49, 32, 53, 54, 51, 50, 52, 32, 52, 52, 51, 13, 10] [72, 69, 76, 76, 79]
    ⟨some ⟨IpAddr.v4 192 168 0 1, 56324⟩, some ⟨IpAddr.v4 192 168 0 11, 443⟩⟩
    (by intro c hc
        rw [List.mem_singleton] at hc
        subst hc
        decide)
    (by decide)
    (Or.inl ⟨by decide, by decide, by decide, by decide⟩)

end Wire
